import Mathlib

/-!
Verification of the rm-guard command gate (src/hooks/validate-rm.py).

The Python module is embedded shallowly: every Python string is a Lean
`String`, manipulated through its underlying character list so that the
embedding follows Python's codepoint semantics.  Filesystem probes
(`os.path.exists`, `os.path.realpath`, `os.path.isdir`) are abstracted into
an explicit `FileSystem` record, and the environment-supplied home
directory is an explicit argument, so every function of the gate is a pure
function of its inputs, exactly as the spec's determinism section demands.
-/

namespace RmGuard

/-- Character 34, the double quote (written via its code point to keep
source scanning simple). -/
def dq : Char := Char.ofNat 34

/-- Character 39, the single quote. -/
def sq : Char := Char.ofNat 39

/-- Character 96, the backtick used by the command-substitution pattern. -/
def bq : Char := Char.ofNat 96

/-- `s.startswith(pre)` on Python strings, via the character lists. -/
def startsWithS (s pre : String) : Bool := pre.data.isPrefixOf s.data

/-- `s.endswith(suf)` on Python strings. -/
def endsWithS (s suf : String) : Bool := suf.data.isSuffixOf s.data

/-- `s[n:]` for a nonnegative `n`. -/
def dropS (s : String) (n : Nat) : String := ⟨s.data.drop n⟩

/-- `len(s)` (number of codepoints, as in Python). -/
def lenS (s : String) : Nat := s.data.length

/-- `c in s` for a single character. -/
def containsCh (s : String) (c : Char) : Bool := s.data.contains c

/-- The abstract filesystem state a single check runs against:
`existsOnDisk` models `os.path.exists`, `realpathOf` models
`os.path.realpath`, `isDirOf` models `os.path.isdir`. -/
structure FileSystem where
  existsOnDisk : String → Bool
  realpathOf : String → String
  isDirOf : String → Bool

/-- A filesystem on which no probed path exists and every directory lookup
succeeds; used to instantiate concrete runs of the gate. -/
def emptyFS : FileSystem :=
  { existsOnDisk := fun _ => false, realpathOf := fun p => p, isDirOf := fun _ => true }

/-- `DANGEROUS_COMMANDS`: commands that can delete files. -/
def DANGEROUS_COMMANDS : List String :=
  ["rm", "unlink", "rmdir", "shred",
   "/bin/rm", "/usr/bin/rm", "/bin/unlink", "/usr/bin/unlink"]

/-- `COMMAND_EXECUTORS`: commands that execute other commands. -/
def COMMAND_EXECUTORS : List String :=
  ["xargs", "parallel", "find", "sudo", "doas", "env", "nice", "nohup",
   "time", "timeout", "watch", "sh", "bash", "zsh", "dash", "fish"]

/-!
`UNRESOLVABLE_PATTERNS` is a list of Python regexes searched with
`re.search`.  Each pattern is embedded as a decidable scan over the
character list of the candidate path token.
-/

/-- Occurrence of `needle` as a contiguous substring (`re.search` on a
literal pattern such as the ones for the dollar-brace and dollar-paren
checks). -/
def hasSubSeq (needle : List Char) : List Char → Bool
  | [] => needle.isEmpty
  | c :: cs => needle.isPrefixOf (c :: cs) || hasSubSeq needle cs

/-- Scan for a closing backtick (all characters passed over before it are
not backticks, matching the one-or-more non-backtick characters the
backtick regex requires). -/
def closeTick : List Char → Bool
  | [] => false
  | c :: cs => if c = bq then true else closeTick cs

/-- State after an opening backtick: further backticks restart the match,
any other character means one non-backtick has been read and a closing
backtick completes the regex. -/
def afterTick : List Char → Bool
  | [] => false
  | c :: cs => if c = bq then afterTick cs else closeTick cs

/-- The backtick command-substitution regex: a backtick, one or more
non-backtick characters, then a backtick. -/
def backtickPat : List Char → Bool
  | [] => false
  | c :: cs => if c = bq then afterTick cs else backtickPat cs

/-- The `$VAR` regex: a dollar sign immediately followed by an ASCII
letter or underscore. -/
def dollarVarPat : List Char → Bool
  | [] => false
  | c :: cs =>
    (c = '$' &&
      match cs with
      | c2 :: _ => ('A' ≤ c2 && c2 ≤ 'Z') || ('a' ≤ c2 && c2 ≤ 'z') || c2 = '_'
      | [] => false) || dollarVarPat cs

/-- Scan for a closing square bracket before any newline (the dot of the
glob-brackets regex does not match newlines). -/
def scanRB : List Char → Bool
  | [] => false
  | c :: cs => if c = ']' then true else if c = '\n' then false else scanRB cs

/-- The glob-brackets regex: an opening bracket, any characters other than
newline, then a closing bracket. -/
def bracketPat : List Char → Bool
  | [] => false
  | c :: cs => if c = '[' then (scanRB cs || bracketPat cs) else bracketPat cs

/-- True when any pattern of `UNRESOLVABLE_PATTERNS` matches the token:
`${`, `$(`, backtick substitution, `$VAR`, `*`, `?`, or `[...]`. -/
def containsUnresolvable (s : String) : Bool :=
  hasSubSeq "$\x7b".data s.data || hasSubSeq "$(".data s.data ||
    backtickPat s.data || dollarVarPat s.data ||
    s.data.contains '*' || s.data.contains '?' || bracketPat s.data

/-- Split a character list on a separator character, as Python's
`str.split` with a one-character separator (used for `'/'`). -/
def splitChar (sep : Char) : List Char → List (List Char)
  | [] => [[]]
  | c :: cs =>
    let r := splitChar sep cs
    if c = sep then [] :: r
    else
      match r with
      | h :: t => (c :: h) :: t
      | [] => [[c]]

/-- `sep.join(parts)`. -/
def intercalateS (sep : String) : List String → String
  | [] => ""
  | [x] => x
  | x :: y :: rest => x ++ sep ++ intercalateS sep (y :: rest)

/-- `os.path.basename`: everything after the last slash. -/
def basename (p : String) : String :=
  (((splitChar '/' p.data).map (fun l => (⟨l⟩ : String))).getLastD "")

/-- `os.path.join(a, b)` for POSIX paths (two-argument form). -/
def pjoin (a b : String) : String :=
  if startsWithS b "/" then b
  else if a = "" || endsWithS a "/" then a ++ b
  else a ++ "/" ++ b

/-- `os.path.isabs` for POSIX paths. -/
def isAbsS (p : String) : Bool := startsWithS p "/"

/-- One step of `posixpath.normpath`'s component loop. -/
def normStep (initialSlashes : Nat) (acc : List String) (comp : String) : List String :=
  if comp = "" || comp = "." then acc
  else if comp ≠ ".." || (initialSlashes = 0 && acc.isEmpty) ||
      (!acc.isEmpty && acc.getLastD "" = "..") then acc ++ [comp]
  else if !acc.isEmpty then acc.dropLast
  else acc

/-- `posixpath.normpath`: collapse slashes and `.` components, resolve
`..` lexically, preserving an initial double slash. -/
def normpath (p : String) : String :=
  if p = "" then "."
  else
    let initialSlashes : Nat :=
      if startsWithS p "/" then
        if startsWithS p "//" && !startsWithS p "///" then 2 else 1
      else 0
    let comps := (splitChar '/' p.data).map (fun l => (⟨l⟩ : String))
    let newComps := comps.foldl (normStep initialSlashes) []
    let res := (⟨List.replicate initialSlashes '/'⟩ : String) ++ intercalateS "/" newComps
    if res = "" then "." else res

/-- `is_path_within_directory`: normalize both paths, then test equality
or prefix-with-separator. -/
def is_path_within_directory (path directory : String) : Bool :=
  let p := normpath path
  let d := normpath directory
  p = d || startsWithS p (d ++ "/")

/-- `resolve_path`: reject tokens matching an unresolvable pattern or a
foreign-user tilde, expand a leading `~`, make absolute against the
working directory, normalize, and follow symlinks when the path exists. -/
def resolve_path (fs : FileSystem) (path cwd home : String) : Option String :=
  if containsUnresolvable path then none
  else
    let step1 : Option String :=
      if startsWithS path "~" then
        if path = "~" || startsWithS path "~/" then some (home ++ dropS path 1)
        else none
      else some path
    match step1 with
    | none => none
    | some p1 =>
      let p2 := if isAbsS p1 then p1 else pjoin cwd p1
      let p3 := normpath p2
      some (if fs.existsOnDisk p3 then fs.realpathOf p3 else p3)

/-!
The tokenizer: `shlex.shlex(command, posix=True, punctuation_chars=True)`
with `whitespace_split = False`, iterated to a token list.  The reader
state machine of `shlex.read_token` is embedded with one state per
character read; the one-character pushback used by the punctuation logic
is realized by handling the pushed-back character inline in the same step,
so the recursion is structural on the input.
-/

/-- The word characters of the posix `shlex` instance with punctuation
characters enabled (the base set, the Latin-1 letters added for posix
mode, and `~-./*?=`). -/
def wordcharsList : List Char :=
  ("abcdfeghijklmnopqrstuvwxyz" ++ "ABCDEFGHIJKLMNOPQRSTUVWXYZ0123456789_" ++
   "ßàáâãäåæçèéêëìíîïðñòóôõöøùúûüýþÿ" ++ "ÀÁÂÃÄÅÆÇÈÉÊËÌÍÎÏÐÑÒÓÔÕÖØÙÚÛÜÝÞ" ++
   "~-./*?=").data

/-- `punctuation_chars` of the lexer. -/
def punctCharsList : List Char := "();<>|&".data

/-- `whitespace` of the lexer. -/
def whitespaceList : List Char := " \t\r\n".data

/-- Reader states of `shlex.read_token`: whitespace, word (`'a'`),
punctuation run (`'c'`), inside a comment line, inside a quote, and after
an escape character (remembering whether the escape arose inside a double
quote). -/
inductive SState where
  | ws : SState
  | word : SState
  | punct : SState
  | comment : SState
  | quote : Char → SState
  | esc : Option Char → SState

/-- The `read_token` loop, processing the whole input and returning the
token list, or `none` for the `ValueError` raised on an unterminated
quote or a trailing escape character.  Arguments: remaining input,
state, current token, the `quoted` flag, tokens emitted so far. -/
def lexLoop : List Char → SState → List Char → Bool → List String → Option (List String)
  | [], st, tok, quoted, acc =>
    match st with
    | .quote _ => none
    | .esc _ => none
    | _ => if tok ≠ [] || quoted then some (acc ++ [(⟨tok⟩ : String)]) else some acc
  | c :: rest, .comment, tok, quoted, acc =>
    if c = '\n' then lexLoop rest .ws tok quoted acc
    else lexLoop rest .comment tok quoted acc
  | c :: rest, .ws, tok, quoted, acc =>
    if whitespaceList.contains c then
      if tok ≠ [] || quoted then lexLoop rest .ws [] false (acc ++ [(⟨tok⟩ : String)])
      else lexLoop rest .ws tok quoted acc
    else if c = '#' then lexLoop rest .comment tok quoted acc
    else if c = '\\' then lexLoop rest (.esc none) tok quoted acc
    else if wordcharsList.contains c then lexLoop rest .word [c] quoted acc
    else if punctCharsList.contains c then lexLoop rest .punct [c] quoted acc
    else if c = sq || c = dq then lexLoop rest (.quote c) tok quoted acc
    else lexLoop rest .ws [] false (acc ++ [(⟨[c]⟩ : String)])
  | c :: rest, .quote q, tok, _, acc =>
    if c = q then lexLoop rest .word tok true acc
    else if c = '\\' && q = dq then lexLoop rest (.esc (some q)) tok true acc
    else lexLoop rest (.quote q) (tok ++ [c]) true acc
  | c :: rest, .esc fq, tok, quoted, acc =>
    match fq with
    | none => lexLoop rest .word (tok ++ [c]) quoted acc
    | some q =>
      if c ≠ '\\' && c ≠ q then lexLoop rest (.quote q) (tok ++ ['\\', c]) quoted acc
      else lexLoop rest (.quote q) (tok ++ [c]) quoted acc
  | c :: rest, .word, tok, quoted, acc =>
    if whitespaceList.contains c then
      if tok ≠ [] || quoted then lexLoop rest .ws [] false (acc ++ [(⟨tok⟩ : String)])
      else lexLoop rest .ws tok quoted acc
    else if c = '#' then
      if tok ≠ [] || quoted then lexLoop rest .comment [] false (acc ++ [(⟨tok⟩ : String)])
      else lexLoop rest .comment tok quoted acc
    else if c = sq || c = dq then lexLoop rest (.quote c) tok quoted acc
    else if c = '\\' then lexLoop rest (.esc none) tok quoted acc
    else if wordcharsList.contains c then lexLoop rest .word (tok ++ [c]) quoted acc
    else
      -- the character is pushed back, the token (possibly empty but
      -- quoted) is emitted, and the pushed-back character is then read
      -- again in whitespace state; that re-read is inlined here
      let acc' := if tok ≠ [] || quoted then acc ++ [(⟨tok⟩ : String)] else acc
      if punctCharsList.contains c then lexLoop rest .punct [c] false acc'
      else lexLoop rest .ws [] false (acc' ++ [(⟨[c]⟩ : String)])
  | c :: rest, .punct, tok, quoted, acc =>
    if whitespaceList.contains c then
      if tok ≠ [] || quoted then lexLoop rest .ws [] false (acc ++ [(⟨tok⟩ : String)])
      else lexLoop rest .ws tok quoted acc
    else if c = '#' then
      if tok ≠ [] || quoted then lexLoop rest .comment [] false (acc ++ [(⟨tok⟩ : String)])
      else lexLoop rest .comment tok quoted acc
    else if punctCharsList.contains c then lexLoop rest .punct (tok ++ [c]) quoted acc
    else
      -- non-punctuation character: push back, emit the punctuation run,
      -- and re-read the character in whitespace state (inlined)
      let acc' := acc ++ [(⟨tok⟩ : String)]
      if c = '\\' then lexLoop rest (.esc none) [] false acc'
      else if wordcharsList.contains c then lexLoop rest .word [c] false acc'
      else if c = sq || c = dq then lexLoop rest (.quote c) [] false acc'
      else lexLoop rest .ws [] false (acc' ++ [(⟨[c]⟩ : String)])

/-- Tokenize a command string as `list(lexer)` does, `none` on a lexing
error. -/
def shlexTokens (s : String) : Option (List String) :=
  lexLoop s.data .ws [] false []

/-- The separator tokens that split a token stream into simple commands. -/
def separatorTokens : List String := [";", "|", "||", "&&", "&", "\n"]

/-- The redirection tokens whose following filename token is kept inside
the current simple command. -/
def redirectionTokens : List String := [">", ">>", "<", "2>", "2>>", "&>", "&>>"]

/-- The grouping loop of `parse_command_tokens`: split on separators,
keep redirection operators and their targets inside the current command. -/
def groupTokens : List String → List String → List (List String) → List (List String)
  | [], cur, acc => if cur.isEmpty then acc else acc ++ [cur]
  | t :: ts, cur, acc =>
    if separatorTokens.contains t then
      groupTokens ts [] (if cur.isEmpty then acc else acc ++ [cur])
    else if redirectionTokens.contains t then
      match ts with
      | t2 :: ts2 => groupTokens ts2 (cur ++ [t, t2]) acc
      | [] => groupTokens [] (cur ++ [t]) acc
    else groupTokens ts (cur ++ [t]) acc

/-- `parse_command_tokens`: tokenize and group into simple commands;
`none` is the malformed-command signal. -/
def parse_command_tokens (command : String) : Option (List (List String)) :=
  (shlexTokens command).map (fun toks => groupTokens toks [] [])

/-!
`extract_rm_targets` and its helpers.  The recursion through wrapper
commands and nested `shell -c` strings is made total with an explicit
fuel parameter; `check_command` supplies `command.length + 1` fuel, far
more than the recursion (which strictly consumes tokens or moves to a
strictly shorter nested string) can use.
-/

/-- The flag-skipping loop of the wrapper branch (`sudo`, `doas`, `env`,
`nice`, `nohup`, `time`, `timeout`): returns `tokens[sub_start:]`.  The
Boolean records whether the scan still sits at position 1, which the
`timeout` test reads (its branch advances by one token exactly like the
generic flag branch). -/
def wrapperRemaining (cmd : String) : Bool → List String → List String
  | _, [] => []
  | first, t :: ts =>
    if startsWithS t "-" then
      if cmd = "sudo" && (t = "-u" || t = "-g" || t = "-C") then
        match ts with
        | [] => []
        | _ :: ts2 => wrapperRemaining cmd false ts2
      else if cmd = "timeout" && first then wrapperRemaining cmd false ts
      else wrapperRemaining cmd false ts
    else if containsCh t '=' && cmd = "env" then wrapperRemaining cmd false ts
    else t :: ts

/-- The shell-interpreter branch's scan over `tokens[1:]` for the first
`-c` token that still has a following argument. -/
def findCArg : List String → Option String
  | t :: a :: rest => if t = "-c" then some a else findCArg (a :: rest)
  | _ => none

/-- The deletion test used on sub-commands:
`subcmd in DANGEROUS_COMMANDS or subcmd == 'rm'`. -/
def isDeletionName (s : String) : Bool :=
  DANGEROUS_COMMANDS.contains s || s = "rm"

/-- The `find` action tokens scanned for a following deletion command. -/
def findExecTokens : List String := ["-exec", "-execdir", "-ok", "-okdir"]

/-- The `find` branch: one reason per `-exec`-like token immediately
followed by a deletion command. -/
def findReasons : List String → List String
  | t :: t2 :: rest =>
    (if findExecTokens.contains t && isDeletionName (basename t2) then
      ["find " ++ t ++ " with rm - paths are dynamic"]
    else []) ++ findReasons (t2 :: rest)
  | _ => []

/-- The option-skipping loop of the deletion branch over `tokens[1:]`:
drop `--`-terminated and dashed option tokens, return the path
arguments. -/
def rmPathArgs : List String → List String
  | [] => []
  | t :: ts =>
    if t = "--" then ts
    else if startsWithS t "--" && containsCh t '=' then rmPathArgs ts
    else if startsWithS t "--" then rmPathArgs ts
    else if startsWithS t "-" && lenS t > 1 then rmPathArgs ts
    else t :: ts

/-- One step of the path-argument loop: resolve, recording either the
resolved path or an unresolvable reason. -/
def resolveStep (fs : FileSystem) (cwd home : String)
    (pr : List String × List String) (a : String) : List String × List String :=
  match resolve_path fs a cwd home with
  | none => (pr.1, pr.2 ++ ["Unresolvable path: " ++ a])
  | some p => (pr.1 ++ [p], pr.2)

/-- Resolve every path argument of a deletion command in order. -/
def resolveArgs (fs : FileSystem) (args : List String) (cwd home : String) :
    List String × List String :=
  args.foldl (resolveStep fs cwd home) ([], [])

/-- `extract_rm_targets`: `(resolved_paths, unresolvable_reasons)` for one
simple command, recursing through wrappers, `shell -c` strings, `xargs`
and `find`. -/
def extract_rm_targets (fs : FileSystem) :
    Nat → List String → String → String → List String × List String
  | _, [], _, _ => ([], [])
  | 0, _ :: _, _, _ => ([], [])
  | fuel + 1, t0 :: rest, cwd, home =>
    let cmd := basename t0
    if cmd = "sudo" || cmd = "doas" || cmd = "env" || cmd = "nice" ||
        cmd = "nohup" || cmd = "time" || cmd = "timeout" then
      let rem := wrapperRemaining cmd true rest
      if rem.isEmpty then ([], [])
      else extract_rm_targets fs fuel rem cwd home
    else if cmd = "sh" || cmd = "bash" || cmd = "zsh" || cmd = "dash" || cmd = "fish" then
      match findCArg rest with
      | some arg =>
        match parse_command_tokens arg with
        | none => ([], ["Malformed nested command in " ++ cmd ++ " -c"])
        | some cs =>
          cs.foldl (fun pr c =>
            let r := extract_rm_targets fs fuel c cwd home
            (pr.1 ++ r.1, pr.2 ++ r.2)) ([], [])
      | none => ([], [])
    else if cmd = "xargs" then
      match rest.dropWhile (fun t => startsWithS t "-") with
      | sub :: _ =>
        if isDeletionName (basename sub) then
          ([], ["xargs with rm - paths come from stdin"])
        else ([], [])
      | [] => ([], [])
    else if cmd = "find" then ([], findReasons (t0 :: rest))
    else if !DANGEROUS_COMMANDS.contains cmd && cmd ≠ "rm" then ([], [])
    else resolveArgs fs (rmPathArgs rest) cwd home

/-- One step of `check_command`'s accumulation loop over the simple
commands of the line. -/
def gatherStep (fs : FileSystem) (fuel : Nat) (cwd home : String)
    (pr : List String × List String) (c : List String) : List String × List String :=
  match c with
  | [] => pr
  | t0 :: _ =>
    if DANGEROUS_COMMANDS.contains (basename t0) || COMMAND_EXECUTORS.contains (basename t0) then
      let r := extract_rm_targets fs fuel c cwd home
      (pr.1 ++ r.1, pr.2 ++ r.2)
    else pr

/-- The accumulated `(all_resolved_paths, all_unresolvable)` of a parsed
command line. -/
def gatherTargets (fs : FileSystem) (fuel : Nat) (cmds : List (List String))
    (cwd home : String) : List String × List String :=
  cmds.foldl (gatherStep fs fuel cwd home) ([], [])

/-- The diagnostic for a malformed (untokenizable) command. -/
def malformedBlockMsg (command : String) : String :=
  "BLOCKED: Malformed command (unclosed quotes or syntax error)\n  Command: " ++ command

/-- The diagnostic citing every accumulated unresolvable reason. -/
def unresolvableBlockMsg (reasons : List String) (command abs_cwd : String) : String :=
  "BLOCKED: Command contains rm with unresolvable paths (safety block)\n  Reasons:\n  - " ++
    intercalateS "\n  - " reasons ++
    "\n  Command: " ++ command ++ "\n  Working directory: " ++ abs_cwd

/-- The diagnostic citing a resolved path outside the working directory. -/
def outsideBlockMsg (path abs_cwd command : String) : String :=
  "BLOCKED: rm targets path outside working directory\n  Target: " ++ path ++
    "\n  Working directory: " ++ abs_cwd ++ "\n  Command: " ++ command

/-- The decision step of `check_command` over the accumulated
`(all_resolved_paths, all_unresolvable)` pair: unresolvable reasons block
first, then the first path failing containment blocks, else allow. -/
def decideVerdict (pr : List String × List String) (command abs_cwd : String) : Option String :=
  if pr.2.isEmpty then
    match pr.1.find? (fun p => !is_path_within_directory p abs_cwd) with
    | some p => some (outsideBlockMsg p abs_cwd command)
    | none => none
  else some (unresolvableBlockMsg pr.2 command abs_cwd)

/-- `check_command`: parse, accumulate, then decide.  `none` is the allow
verdict, `some msg` the block verdict with its diagnostic.  (The source
opens with a loop over `dangerous_direct_patterns` whose body is `pass`;
it has no effect and is not embedded.) -/
def check_command (fs : FileSystem) (command cwd home abs_cwd : String) : Option String :=
  match parse_command_tokens command with
  | none => some (malformedBlockMsg command)
  | some cmds =>
    decideVerdict (gatherTargets fs (lenS command + 1) cmds cwd home) command abs_cwd

/-!
`main`: the quick regex scan over the raw string and the overall verdict.
The regex `\b<name>\b` is embedded over the character list with the ASCII
word-character class.  Python's regex engine applies the Unicode word
class to string patterns (a non-ASCII letter such as a-umlaut is a word
character there but not here), so this embedding of the scan coincides
with the program exactly on command strings made of ASCII characters;
every statement about the scan therefore carries an `asciiOnly`
hypothesis on the command string.
-/

/-- A regex word character of the ASCII class (letters, digits,
underscore) — the ASCII fragment of Python's Unicode word class; the two
agree on ASCII strings, and all tracked command names are ASCII. -/
def isWordChar (c : Char) : Bool := c.isAlphanum || c = '_'

/-- Every character of the string is ASCII.  On such strings the ASCII
word class `isWordChar` coincides with the Unicode word class Python's
regex engine uses for the quick scan. -/
def asciiOnly (s : String) : Bool := s.data.all (fun c => c.toNat < 128)

/-- Word-character test of an optional neighbouring character (an edge of
the string counts as a non-word character). -/
def isWordCharOpt : Option Char → Bool
  | none => false
  | some c => isWordChar c

/-- A match of `\b<needle>\b` at the very start of `s`, with `prev` the
character immediately before this position. -/
def wbMatchAt : List Char → Option Char → List Char → Bool
  | [], _, _ => false
  | nh :: nt, prev, s =>
    List.isPrefixOf (nh :: nt) s &&
      (isWordCharOpt prev != isWordChar nh) &&
      (isWordChar ((nh :: nt).getLastD nh) != isWordCharOpt ((s.drop (nt.length + 1)).head?))

/-- `re.search` of `\b<needle>\b`: try the match at every position. -/
def wbSearch (needle : List Char) : Option Char → List Char → Bool
  | _, [] => false
  | prev, c :: cs => wbMatchAt needle prev (c :: cs) || wbSearch needle (some c) cs

/-- Word-boundary occurrence of a command name in the raw command string. -/
def wordBoundaryHit (needle s : String) : Bool := wbSearch needle.data none s.data

/-- `main`'s quick scan: does any tracked command name occur, word-bounded,
in the unparsed command string?  Faithful to the program's `re.search`
loop on ASCII command strings (see the note above on the word class);
theorems that rely on it assume `asciiOnly command`. -/
def hasDangerous (command : String) : Bool :=
  (DANGEROUS_COMMANDS ++ COMMAND_EXECUTORS).any (fun c => wordBoundaryHit c command)

/-- The process outcome: exit 0 or exit 2 with the diagnostic printed to
stderr. -/
inductive Verdict where
  | allowed : Verdict
  | blocked : String → Verdict
deriving DecidableEq

/-- The decision flow of `main` after the input JSON has been read:
tool filter, empty-command filter, working-directory validation, quick
scan, then the full analysis. -/
def mainVerdict (fs : FileSystem) (toolName command cwd home : String) : Verdict :=
  if toolName ≠ "Bash" then .allowed
  else if command = "" then .allowed
  else if cwd = "" || !fs.isDirOf cwd then
    .blocked ("ERROR: Invalid or missing working directory: " ++ cwd)
  else
    let abs_cwd := fs.realpathOf cwd
    if !hasDangerous command then .allowed
    else
      match check_command fs command cwd home abs_cwd with
      | some err => .blocked err
      | none => .allowed

/-!
Spec-side resolver, used to state the refinement claim about
`resolve_path`: written from the wording of spec §4.4 ("expand a leading
`~`/`~/` to home; if not absolute, join with the working directory;
normalize `.`/`..` lexically; if the resulting path exists on disk,
replace it with its fully symlink-resolved real path").
-/

/-- The normalized absolute form of a token per the spec's wording,
before the filesystem step. -/
def resolveNormSpec (tok cwd home : String) : String :=
  let expanded := if tok = "~" || startsWithS tok "~/" then home ++ dropS tok 1 else tok
  normpath (if startsWithS expanded "/" then expanded else pjoin cwd expanded)

/-- The spec-side resolver: the normalized form, symlink-resolved exactly
when the path exists on disk. -/
def resolvePathSpec (fs : FileSystem) (tok cwd home : String) : String :=
  let n := resolveNormSpec tok cwd home
  if fs.existsOnDisk n then fs.realpathOf n else n

/-! Helper lemmas about the accumulation loops. -/

set_option maxRecDepth 8000

theorem isEmpty_false_of_mem {α : Type} {a : α} {l : List α} (h : a ∈ l) :
    l.isEmpty = false := by
  cases l with
  | nil => cases h
  | cons b bs => rfl

theorem isEmpty_false_of_ne_nil {α : Type} {l : List α} (h : l ≠ []) :
    l.isEmpty = false := by
  cases l with
  | nil => exact absurd rfl h
  | cons b bs => rfl

theorem gatherStep_snd_mem (fs : FileSystem) (fuel : Nat) (cwd home : String)
    (pr : List String × List String) (c : List String) (r : String) (h : r ∈ pr.2) :
    r ∈ (gatherStep fs fuel cwd home pr c).2 := by
  unfold gatherStep
  cases c with
  | nil => exact h
  | cons t0 ts =>
    by_cases hc : (DANGEROUS_COMMANDS.contains (basename t0) ||
        COMMAND_EXECUTORS.contains (basename t0)) = true
    · simp only [hc, if_true]
      exact List.mem_append_left _ h
    · simp only [Bool.not_eq_true] at hc
      simp only [hc, if_false]
      exact h

theorem gatherFold_snd_mem (fs : FileSystem) (fuel : Nat) (cwd home : String)
    (cmds : List (List String)) (r : String) :
    ∀ pr : List String × List String, r ∈ pr.2 →
      r ∈ (cmds.foldl (gatherStep fs fuel cwd home) pr).2 := by
  induction cmds with
  | nil => intro pr h; exact h
  | cons c cs ih =>
    intro pr h
    exact ih _ (gatherStep_snd_mem fs fuel cwd home pr c r h)

theorem gatherFold_snd_mem_of_cmd (fs : FileSystem) (fuel : Nat) (cwd home : String)
    (t0 : String) (rest : List String) (r : String)
    (hcond : (DANGEROUS_COMMANDS.contains (basename t0) ||
      COMMAND_EXECUTORS.contains (basename t0)) = true)
    (hr : r ∈ (extract_rm_targets fs fuel (t0 :: rest) cwd home).2) :
    ∀ (cmds : List (List String)) (pr : List String × List String),
      (t0 :: rest) ∈ cmds → r ∈ (cmds.foldl (gatherStep fs fuel cwd home) pr).2 := by
  intro cmds
  induction cmds with
  | nil => intro pr hm; cases hm
  | cons c cs ih =>
    intro pr hm
    rw [List.foldl_cons]
    rcases List.mem_cons.mp hm with heq | htail
    · apply gatherFold_snd_mem
      rw [← heq]
      show r ∈ (gatherStep fs fuel cwd home pr (t0 :: rest)).2
      unfold gatherStep
      simp only [hcond, if_true]
      exact List.mem_append_right _ hr
    · exact ih _ htail

theorem gather_snd_mem_of_cmd (fs : FileSystem) (fuel : Nat) (cwd home : String)
    (cmds : List (List String)) (t0 : String) (rest : List String) (r : String)
    (hm : (t0 :: rest) ∈ cmds)
    (hcond : (DANGEROUS_COMMANDS.contains (basename t0) ||
      COMMAND_EXECUTORS.contains (basename t0)) = true)
    (hr : r ∈ (extract_rm_targets fs fuel (t0 :: rest) cwd home).2) :
    r ∈ (gatherTargets fs fuel cmds cwd home).2 :=
  gatherFold_snd_mem_of_cmd fs fuel cwd home t0 rest r hcond hr cmds ([], []) hm

/-! The claims. -/

/-- C1.  On a line that parses and accumulates no unresolvable reason,
the verdict of `check_command` is allow exactly when every accumulated
resolved path passes the containment test against the working directory
(equality after normalization, or prefix followed by a separator), and
whenever some accumulated path fails the test the verdict is a block
citing such a failing path. -/
theorem decision_allow_iff_contained (fs : FileSystem) (command cwd home abs_cwd : String)
    (cmds : List (List String))
    (hp : parse_command_tokens command = some cmds)
    (hnr : (gatherTargets fs (lenS command + 1) cmds cwd home).2 = []) :
    (check_command fs command cwd home abs_cwd = none ↔
      ∀ p ∈ (gatherTargets fs (lenS command + 1) cmds cwd home).1,
        is_path_within_directory p abs_cwd = true) ∧
    ((∃ p ∈ (gatherTargets fs (lenS command + 1) cmds cwd home).1,
        is_path_within_directory p abs_cwd = false) →
      ∃ p ∈ (gatherTargets fs (lenS command + 1) cmds cwd home).1,
        is_path_within_directory p abs_cwd = false ∧
        check_command fs command cwd home abs_cwd = some (outsideBlockMsg p abs_cwd command)) := by
  have hie : (gatherTargets fs (lenS command + 1) cmds cwd home).2.isEmpty = true := by
    rw [hnr]; rfl
  constructor
  · cases hfind : (gatherTargets fs (lenS command + 1) cmds cwd home).1.find?
        (fun p => !is_path_within_directory p abs_cwd) with
    | none =>
      simp only [check_command, decideVerdict, hp, hie, if_true, hfind]
      constructor
      · intro _ p hpm
        have := List.find?_eq_none.mp hfind p hpm
        simpa using this
      · intro _; trivial
    | some a =>
      simp only [check_command, decideVerdict, hp, hie, if_true, hfind]
      constructor
      · intro h; cases h
      · intro hall
        have ha := List.find?_some hfind
        have ham := List.mem_of_find?_eq_some hfind
        have : is_path_within_directory a abs_cwd = true := hall a ham
        rw [this] at ha
        cases ha
  · intro ⟨p, hpm, hpf⟩
    cases hfind : (gatherTargets fs (lenS command + 1) cmds cwd home).1.find?
        (fun p => !is_path_within_directory p abs_cwd) with
    | none =>
      have := List.find?_eq_none.mp hfind p hpm
      rw [hpf] at this
      simp at this
    | some a =>
      refine ⟨a, List.mem_of_find?_eq_some hfind, ?_, ?_⟩
      · have := List.find?_some hfind
        simpa using this
      · simp only [check_command, decideVerdict, hp, hie, if_true, hfind]

/-- Witness for C1: `rm ./notes.txt` from working directory
`/home/u/project` resolves to `/home/u/project/notes.txt`, which is
contained, so the verdict is allow. -/
theorem decision_allow_iff_contained_witness :
    check_command emptyFS "rm ./notes.txt" "/home/u/project" "/home/u" "/home/u/project" = none :=
  (decision_allow_iff_contained emptyFS "rm ./notes.txt" "/home/u/project" "/home/u"
    "/home/u/project" [["rm", "./notes.txt"]] (by decide) (by decide)).1.mpr (by decide)

theorem check_command_unresolvable (fs : FileSystem) (command cwd home abs_cwd : String)
    (cmds : List (List String))
    (hp : parse_command_tokens command = some cmds)
    (hnr : (gatherTargets fs (lenS command + 1) cmds cwd home).2 ≠ []) :
    check_command fs command cwd home abs_cwd =
      some (unresolvableBlockMsg (gatherTargets fs (lenS command + 1) cmds cwd home).2
        command abs_cwd) := by
  have hie := isEmpty_false_of_ne_nil hnr
  simp only [check_command, decideVerdict, hp, hie, Bool.false_eq_true, if_false]

/-- C2.  As soon as the accumulated unresolvable-reason list of a parsed
line is nonempty, `check_command` blocks with the diagnostic that joins
all accumulated reasons, regardless of the accumulated resolved paths. -/
theorem unresolvable_blocks_citing_all (fs : FileSystem) (command cwd home abs_cwd : String)
    (cmds : List (List String))
    (hp : parse_command_tokens command = some cmds)
    (hnr : (gatherTargets fs (lenS command + 1) cmds cwd home).2 ≠ []) :
    check_command fs command cwd home abs_cwd =
      some (unresolvableBlockMsg (gatherTargets fs (lenS command + 1) cmds cwd home).2
        command abs_cwd) :=
  check_command_unresolvable fs command cwd home abs_cwd cmds hp hnr

/-- Witness for C2: `rm *.txt` yields the glob reason and is blocked with
the diagnostic citing it. -/
theorem unresolvable_blocks_citing_all_witness :
    check_command emptyFS "rm *.txt" "/home/u/project" "/home/u" "/home/u/project" =
      some (unresolvableBlockMsg ["Unresolvable path: *.txt"] "rm *.txt" "/home/u/project") :=
  (unresolvable_blocks_citing_all emptyFS "rm *.txt" "/home/u/project" "/home/u"
    "/home/u/project" [["rm", "*.txt"]] (by decide) (by decide)).trans (by decide)

/-- C10.  A simple command whose head basename is `parallel` or `watch`
contributes no resolved paths and no unresolvable reasons, and a line
consisting of such a command alone is allowed even when its arguments
name a deletion command targeting a path outside the working
directory. -/
theorem parallel_watch_inert (fs : FileSystem) (fuel : Nat) (t0 : String)
    (rest : List String) (cwd home : String)
    (h : basename t0 = "parallel" ∨ basename t0 = "watch") :
    extract_rm_targets fs fuel (t0 :: rest) cwd home = ([], []) ∧
    check_command emptyFS "parallel rm -rf /etc" "/home/u/project" "/home/u"
      "/home/u/project" = none ∧
    check_command emptyFS "watch rm -rf /etc" "/home/u/project" "/home/u"
      "/home/u/project" = none := by
  refine ⟨?_, by decide, by decide⟩
  cases fuel with
  | zero => rfl
  | succ n =>
    rcases h with h | h <;>
      simp [extract_rm_targets, h, DANGEROUS_COMMANDS, List.contains_cons]

/-- Witness for C10: `watch` heading a deletion of `/etc`. -/
theorem parallel_watch_inert_witness :
    extract_rm_targets emptyFS 3 ["watch", "rm", "-rf", "/etc"] "/home/u/project"
      "/home/u" = ([], []) :=
  (parallel_watch_inert emptyFS 3 "watch" ["rm", "-rf", "/etc"] "/home/u/project"
    "/home/u" (Or.inr (by decide))).1

/-- C4 counterexample.  The claim asserts every analyzed request (Bash,
non-empty command) with unterminated quoting is force-blocked and never
silently allowed; but `echo "oops` has unterminated quoting, contains no
tracked command name, fails the quick scan that runs before tokenization,
and exits 0. -/
theorem quickscan_allows_malformed_counterexample :
    shlexTokens "echo \"oops" = none ∧
    mainVerdict emptyFS "Bash" "echo \"oops" "/home/u" "/home/u" = .allowed := by
  constructor <;> decide

/-- C4 (amended).  For an analyzed Bash request with a valid working
directory whose ASCII command string passes the preliminary
dangerous-name scan, a tokenization failure (the malformed signal raised
on unterminated quoting) forces the block verdict with the malformed
diagnostic — never a silent allow.  The `asciiOnly` hypothesis scopes
the statement to the commands on which the embedded scan coincides with
the program's Unicode-word-class regex scan. -/
theorem malformed_after_scan_blocks (fs : FileSystem) (command cwd home : String)
    (hne : command ≠ "")
    (_hascii : asciiOnly command = true)
    (hcwd : cwd ≠ "")
    (hdir : fs.isDirOf cwd = true)
    (hscan : hasDangerous command = true)
    (hmal : shlexTokens command = none) :
    mainVerdict fs "Bash" command cwd home = .blocked (malformedBlockMsg command) := by
  have hp : parse_command_tokens command = none := by
    simp [parse_command_tokens, hmal]
  simp [mainVerdict, hne, hcwd, hdir, hscan, check_command, hp]

/-- Witness for the amended C4: `rm "oops` passes the scan, fails to
tokenize, and is blocked. -/
theorem malformed_after_scan_blocks_witness :
    mainVerdict emptyFS "Bash" "rm \"oops" "/home/u" "/home/u" =
      .blocked (malformedBlockMsg "rm \"oops") :=
  malformed_after_scan_blocks emptyFS "rm \"oops" "/home/u" "/home/u"
    (by decide) (by decide) (by decide) (by decide) (by decide) (by decide)

/-- C9 counterexample.  The claim asserts every Bash request whose raw
command contains no tracked name exits 0; but with an invalid (empty)
working directory the gate blocks before the quick scan runs, so the
request `ls -la` with `cwd = ""` exits 2. -/
theorem scan_miss_blocked_on_invalid_cwd_counterexample :
    hasDangerous "ls -la" = false ∧
    mainVerdict emptyFS "Bash" "ls -la" "" "/root" ≠ .allowed ∧
    mainVerdict emptyFS "Bash" "ls -la" "" "/root" =
      .blocked ("ERROR: Invalid or missing working directory: ") := by
  refine ⟨by decide, by decide, by decide⟩

/-- C9 (amended).  For a Bash request with a non-empty ASCII command
string and a valid working directory, if no tracked command name occurs
word-bounded in the unparsed command string, the gate allows without the
full analysis — so tracked-command spellings only produced by
tokenization (such as `r\m`) bypass it.  The `asciiOnly` hypothesis
scopes the statement to the commands on which the embedded scan
coincides with the program's Unicode-word-class regex scan. -/
theorem quickscan_miss_allows (fs : FileSystem) (command cwd home : String)
    (hne : command ≠ "")
    (_hascii : asciiOnly command = true)
    (hcwd : cwd ≠ "")
    (hdir : fs.isDirOf cwd = true)
    (hscan : hasDangerous command = false) :
    mainVerdict fs "Bash" command cwd home = .allowed := by
  simp [mainVerdict, hne, hcwd, hdir, hscan]

/-- Witness for the amended C9: `r\m -rf /x` tokenizes to an `rm` of
`/x`, but the raw string contains no tracked name, so the gate allows. -/
theorem quickscan_miss_allows_witness :
    mainVerdict emptyFS "Bash" "r\\m -rf /x" "/home/u" "/home/u" = .allowed :=
  quickscan_miss_allows emptyFS "r\\m -rf /x" "/home/u" "/home/u"
    (by decide) (by decide) (by decide) (by decide) (by decide)

theorem startsWithS_tilde_of_slash (s : String) (h : startsWithS s "~/" = true) :
    startsWithS s "~" = true := by
  unfold startsWithS at h ⊢
  cases hd : s.data with
  | nil => rw [hd] at h; exact absurd h (by decide)
  | cons c cs =>
    rw [hd] at h
    simp [List.isPrefixOf] at h ⊢
    exact h.1

/-- C8.  For a path token free of the unresolvable rejection conditions
(no dynamic-content pattern, not a foreign-user tilde reference), the
resolver succeeds with exactly the spec-described value: a leading
`~`/`~/` expanded to home, a relative path joined onto the working
directory, lexical normalization of `.`/`..`, and the symlink-resolved
real path exactly when the result exists on disk; in particular a
nonexistent path is never an error and resolves to its normalized
form. -/
theorem resolve_path_refines_spec (fs : FileSystem) (tok cwd home : String)
    (h1 : containsUnresolvable tok = false)
    (h2 : ¬(startsWithS tok "~" = true ∧ tok ≠ "~" ∧ startsWithS tok "~/" = false)) :
    resolve_path fs tok cwd home = some (resolvePathSpec fs tok cwd home) ∧
    (fs.existsOnDisk (resolveNormSpec tok cwd home) = false →
      resolve_path fs tok cwd home = some (resolveNormSpec tok cwd home)) := by
  by_cases hts : startsWithS tok "~" = true
  · by_cases hc : (tok = "~" || startsWithS tok "~/") = true
    · constructor
      · simp [resolve_path, resolvePathSpec, resolveNormSpec, h1, hts, hc, isAbsS]
      · intro hex
        simp [resolve_path, resolvePathSpec, resolveNormSpec, h1, hts, hc, isAbsS] at hex ⊢
        simp [hex]
    · exfalso
      simp only [Bool.or_eq_true, decide_eq_true_eq, not_or] at hc
      exact h2 ⟨hts, fun he => hc.1 he, by
        cases hsl : startsWithS tok "~/" with
        | false => rfl
        | true => exact absurd hsl hc.2⟩
  · have hc : (tok = "~" || startsWithS tok "~/") = false := by
      cases heq : decide (tok = "~") with
      | true =>
        exfalso
        have : tok = "~" := of_decide_eq_true heq
        rw [this] at hts
        exact hts (by decide)
      | false =>
        have hne : tok ≠ "~" := of_decide_eq_false heq
        cases hsl : startsWithS tok "~/" with
        | true => exact absurd (startsWithS_tilde_of_slash tok hsl) hts
        | false => simp [hne, hsl]
    have hts' : startsWithS tok "~" = false := by
      cases hv : startsWithS tok "~" with
      | false => rfl
      | true => exact absurd hv hts
    constructor
    · simp [resolve_path, resolvePathSpec, resolveNormSpec, h1, hts', hc, isAbsS]
    · intro hex
      simp [resolve_path, resolvePathSpec, resolveNormSpec, h1, hts', hc, isAbsS] at hex ⊢
      simp [hex]

/-- Witness for C8: `~/notes/../x` with home `/home/u` resolves to the
spec value `/home/u/x` on the empty filesystem. -/
theorem resolve_path_refines_spec_witness :
    resolve_path emptyFS "~/notes/../x" "/home/u/project" "/home/u" =
      some (resolvePathSpec emptyFS "~/notes/../x" "/home/u/project" "/home/u") :=
  (resolve_path_refines_spec emptyFS "~/notes/../x" "/home/u/project" "/home/u"
    (by decide) (by decide)).1

/-- C5.  For a simple command headed by `xargs` whose sub-command (first
token after the leading dash flags, per the spec) is a deletion command,
the analysis emits exactly the stream-sourced unresolvable reason and no
paths — for any combination of dash flags skipped — and a parsed line
containing such a simple command is blocked citing that reason. -/
theorem xargs_deletion_blocks (fs : FileSystem) (fuel : Nat) (t0 : String)
    (rest restAfter : List String) (sub : String) (cwd home : String)
    (hx : basename t0 = "xargs")
    (hsub : rest.dropWhile (fun t => startsWithS t "-") = sub :: restAfter)
    (hdel : isDeletionName (basename sub) = true) :
    extract_rm_targets fs (fuel + 1) (t0 :: rest) cwd home =
      ([], ["xargs with rm - paths come from stdin"]) ∧
    ∀ (command abs_cwd : String) (cmds : List (List String)),
      parse_command_tokens command = some cmds → (t0 :: rest) ∈ cmds →
      ∃ rs, check_command fs command cwd home abs_cwd =
          some (unresolvableBlockMsg rs command abs_cwd) ∧
        "xargs with rm - paths come from stdin" ∈ rs := by
  have hext : ∀ n : Nat, extract_rm_targets fs (n + 1) (t0 :: rest) cwd home =
      ([], ["xargs with rm - paths come from stdin"]) := by
    intro n
    simp [extract_rm_targets, hx, hsub, hdel]
  refine ⟨hext fuel, ?_⟩
  intro command abs_cwd cmds hp hm
  have hr : "xargs with rm - paths come from stdin" ∈
      (extract_rm_targets fs (lenS command + 1) (t0 :: rest) cwd home).2 := by
    rw [hext (lenS command)]
    exact List.mem_singleton_self _
  have hcond : (DANGEROUS_COMMANDS.contains (basename t0) ||
      COMMAND_EXECUTORS.contains (basename t0)) = true := by
    rw [hx]; decide
  have hmem := gather_snd_mem_of_cmd fs (lenS command + 1) cwd home cmds t0 rest _
    hm hcond hr
  refine ⟨(gatherTargets fs (lenS command + 1) cmds cwd home).2, ?_, hmem⟩
  exact check_command_unresolvable fs command cwd home abs_cwd cmds hp
    (fun hnil => by rw [hnil] at hmem; cases hmem)

/-- Witness for C5: `echo hi | xargs rm` is blocked citing the
stream-sourced reason. -/
theorem xargs_deletion_blocks_witness :
    ∃ rs, check_command emptyFS "echo hi | xargs rm" "/home/u/project" "/home/u"
        "/home/u/project" = some (unresolvableBlockMsg rs "echo hi | xargs rm"
          "/home/u/project") ∧
      "xargs with rm - paths come from stdin" ∈ rs :=
  (xargs_deletion_blocks emptyFS 0 "xargs" ["rm"] [] "rm" "/home/u/project" "/home/u"
    (by decide) (by decide) (by decide)).2 "echo hi | xargs rm" "/home/u/project"
    [["echo", "hi"], ["xargs", "rm"]] (by decide) (by decide)

/-- C6 counterexample.  The claim says the wrapper analysis skips
`timeout`'s duration argument and recurses on the remaining tokens as a
fresh invocation; but the duration-consuming branch sits inside the test
for a leading dash, so the non-dash duration `10` stops the scan:
`timeout 10 rm -rf /etc` contributes nothing and the line is allowed,
although the recursion the claim describes (`rm -rf /etc`) yields the
outside path `/etc`. -/
theorem timeout_duration_not_skipped_counterexample :
    extract_rm_targets emptyFS 5 ["timeout", "10", "rm", "-rf", "/etc"]
      "/home/u/project" "/home/u" = ([], []) ∧
    extract_rm_targets emptyFS 5 ["rm", "-rf", "/etc"]
      "/home/u/project" "/home/u" = (["/etc"], []) ∧
    check_command emptyFS "timeout 10 rm -rf /etc" "/home/u/project" "/home/u"
      "/home/u/project" = none := by
  refine ⟨by decide, by decide, by decide⟩

/-- C6 (amended).  A simple command headed by a privilege/resource
wrapper is re-analyzed on the tokens left after the flag scan: dash
tokens are skipped, `sudo -u`/`-g`/`-C` consume the following token, and
`env VAR=value` assignments are skipped; `timeout`'s duration argument is
not specially consumed — a non-dash duration token stops the scan.  In
particular `sudo rm -rf /tmp/x` from `/home/u/project` is blocked with
reported path `/tmp/x`. -/
theorem wrapper_flag_skipping :
    (∀ (fs : FileSystem) (fuel : Nat) (t0 : String) (rest : List String) (cwd home : String),
      (basename t0 = "sudo" ∨ basename t0 = "doas" ∨ basename t0 = "env" ∨
        basename t0 = "nice" ∨ basename t0 = "nohup" ∨ basename t0 = "time" ∨
        basename t0 = "timeout") →
      extract_rm_targets fs (fuel + 1) (t0 :: rest) cwd home =
        (if (wrapperRemaining (basename t0) true rest).isEmpty then ([], [])
         else extract_rm_targets fs fuel (wrapperRemaining (basename t0) true rest) cwd home)) ∧
    (∀ (first : Bool) (f u : String) (ts : List String),
      (f = "-u" ∨ f = "-g" ∨ f = "-C") →
      wrapperRemaining "sudo" first (f :: u :: ts) = wrapperRemaining "sudo" false ts) ∧
    (∀ (cmd : String) (first : Bool) (t : String) (ts : List String),
      startsWithS t "-" = true →
      ¬(cmd = "sudo" ∧ (t = "-u" ∨ t = "-g" ∨ t = "-C")) →
      wrapperRemaining cmd first (t :: ts) = wrapperRemaining cmd false ts) ∧
    (∀ (first : Bool) (v : String) (ts : List String),
      startsWithS v "-" = false → containsCh v '=' = true →
      wrapperRemaining "env" first (v :: ts) = wrapperRemaining "env" false ts) ∧
    (∀ (d : String) (ts : List String),
      startsWithS d "-" = false →
      wrapperRemaining "timeout" true (d :: ts) = d :: ts) ∧
    check_command emptyFS "sudo rm -rf /tmp/x" "/home/u/project" "/home/u"
      "/home/u/project" =
      some (outsideBlockMsg "/tmp/x" "/home/u/project" "sudo rm -rf /tmp/x") := by
  refine ⟨?_, ?_, ?_, ?_, ?_, by decide⟩
  · intro fs fuel t0 rest cwd home hw
    rcases hw with h | h | h | h | h | h | h <;> simp [extract_rm_targets, h]
  · intro first f u ts hf
    rcases hf with rfl | rfl | rfl <;> rfl
  · intro cmd first t ts ht hns
    have hsudo : (decide (cmd = "sudo") &&
        (decide (t = "-u") || decide (t = "-g") || decide (t = "-C"))) = false := by
      by_cases hcs : cmd = "sudo"
      · have hts : ¬(t = "-u" ∨ t = "-g" ∨ t = "-C") := fun hor => hns ⟨hcs, hor⟩
        simp only [not_or] at hts
        simp [hcs, hts.1, hts.2.1, hts.2.2]
      · simp [hcs]
    rw [wrapperRemaining.eq_def]
    simp only [ht, if_true, hsudo, Bool.false_eq_true, if_false]
    split <;> rfl
  · intro first v ts hv he
    rw [wrapperRemaining.eq_def]
    simp [hv, he]
  · intro d ts hd
    rw [wrapperRemaining.eq_def]
    simp [hd]

/-- Witness for the amended C6: instantiating the timeout clause at the
duration `10` shows the scan stops there. -/
theorem wrapper_flag_skipping_witness :
    wrapperRemaining "timeout" true ["10", "rm", "-rf", "/etc"] =
      ["10", "rm", "-rf", "/etc"] :=
  wrapper_flag_skipping.2.2.2.2.1 "10" ["rm", "-rf", "/etc"] (by decide)

/-- C7 counterexample.  The claim says `bash -c "rm -rf /etc"` is blocked
regardless of the outer working directory; but the recursion does resolve
`/etc`, and when the working directory is `/etc` itself the containment
test passes, so the line is allowed. -/
theorem bash_c_allowed_in_etc_counterexample :
    gatherTargets emptyFS (lenS "bash -c \"rm -rf /etc\"" + 1)
      [["bash", "-c", "rm -rf /etc"]] "/etc" "/home/u" = (["/etc"], []) ∧
    check_command emptyFS "bash -c \"rm -rf /etc\"" "/etc" "/home/u" "/etc" = none := by
  refine ⟨by decide, by decide⟩

/-- C7 (amended).  A simple command headed by a shell interpreter with a
`-c` flag carrying a string argument re-enters the full pipeline on that
string (tokenized and grouped as its own command line, every resulting
simple command analyzed, a lexing failure of the string yielding the
malformed-nested reason); an interpreter without a detectable `-c` flag
contributes no paths and no reasons.  In particular
`bash -c "rm -rf /etc"` is blocked with resolved path `/etc` for every
working directory against which `/etc` fails the containment test. -/
theorem shell_dash_c_recursion :
    (∀ (fs : FileSystem) (fuel : Nat) (t0 : String) (rest : List String) (cwd home : String),
      (basename t0 = "sh" ∨ basename t0 = "bash" ∨ basename t0 = "zsh" ∨
        basename t0 = "dash" ∨ basename t0 = "fish") →
      findCArg rest = none →
      extract_rm_targets fs (fuel + 1) (t0 :: rest) cwd home = ([], [])) ∧
    (∀ (fs : FileSystem) (fuel : Nat) (t0 : String) (rest : List String)
        (cwd home argStr : String),
      (basename t0 = "sh" ∨ basename t0 = "bash" ∨ basename t0 = "zsh" ∨
        basename t0 = "dash" ∨ basename t0 = "fish") →
      findCArg rest = some argStr →
      extract_rm_targets fs (fuel + 1) (t0 :: rest) cwd home =
        (match parse_command_tokens argStr with
         | none => ([], ["Malformed nested command in " ++ basename t0 ++ " -c"])
         | some cs =>
           cs.foldl (fun pr c =>
             let r := extract_rm_targets fs fuel c cwd home
             (pr.1 ++ r.1, pr.2 ++ r.2)) ([], []))) ∧
    (∀ (cwd home abs_cwd : String),
      is_path_within_directory "/etc" abs_cwd = false →
      check_command emptyFS "bash -c \"rm -rf /etc\"" cwd home abs_cwd =
        some (outsideBlockMsg "/etc" abs_cwd "bash -c \"rm -rf /etc\"")) := by
  refine ⟨?_, ?_, ?_⟩
  · intro fs fuel t0 rest cwd home hs hnc
    rcases hs with h | h | h | h | h <;> simp [extract_rm_targets, h, hnc]
  · intro fs fuel t0 rest cwd home argStr hs hc
    rcases hs with h | h | h | h | h <;> simp [extract_rm_targets, h, hc]
  · intro cwd home abs_cwd hout
    have hp : parse_command_tokens "bash -c \"rm -rf /etc\"" =
        some [["bash", "-c", "rm -rf /etc"]] := by decide
    have hg : gatherTargets emptyFS (lenS "bash -c \"rm -rf /etc\"" + 1)
        [["bash", "-c", "rm -rf /etc"]] cwd home = (["/etc"], []) := rfl
    have hfind : (["/etc"] : List String).find?
        (fun p => !is_path_within_directory p abs_cwd) = some "/etc" := by
      simp [List.find?, hout]
    unfold check_command
    rw [hp]
    show decideVerdict (gatherTargets emptyFS (lenS "bash -c \"rm -rf /etc\"" + 1)
        [["bash", "-c", "rm -rf /etc"]] cwd home) "bash -c \"rm -rf /etc\"" abs_cwd =
      some (outsideBlockMsg "/etc" abs_cwd "bash -c \"rm -rf /etc\"")
    rw [hg]
    simp only [decideVerdict, List.isEmpty_nil, if_true, hfind]

/-- Witness for the amended C7: from `/home/u/project` the nested
`rm -rf /etc` is blocked with resolved path `/etc`. -/
theorem shell_dash_c_recursion_witness :
    check_command emptyFS "bash -c \"rm -rf /etc\"" "/home/u/project" "/home/u"
        "/home/u/project" =
      some (outsideBlockMsg "/etc" "/home/u/project" "bash -c \"rm -rf /etc\"") :=
  shell_dash_c_recursion.2.2 "/home/u/project" "/home/u" "/home/u/project" (by decide)

theorem resolve_path_none_of_unres (fs : FileSystem) (a cwd home : String)
    (h : containsUnresolvable a = true) : resolve_path fs a cwd home = none := by
  simp [resolve_path, h]

theorem resolveFold_snd_mem (fs : FileSystem) (cwd home : String) (args : List String)
    (r : String) :
    ∀ pr : List String × List String, r ∈ pr.2 →
      r ∈ (args.foldl (resolveStep fs cwd home) pr).2 := by
  induction args with
  | nil => intro pr h; exact h
  | cons a as ih =>
    intro pr h
    rw [List.foldl_cons]
    apply ih
    unfold resolveStep
    cases resolve_path fs a cwd home with
    | none => exact List.mem_append_left _ h
    | some p => exact h

theorem resolveArgs_mem_reason (fs : FileSystem) (cwd home : String)
    (args : List String) (a : String)
    (ha : a ∈ args) (hn : resolve_path fs a cwd home = none) :
    ("Unresolvable path: " ++ a) ∈ (resolveArgs fs args cwd home).2 := by
  unfold resolveArgs
  suffices hgen : ∀ (l : List String), a ∈ l →
      ∀ pr : List String × List String,
        ("Unresolvable path: " ++ a) ∈ (l.foldl (resolveStep fs cwd home) pr).2 by
    exact hgen args ha ([], [])
  intro l
  induction l with
  | nil => intro h; cases h
  | cons b bs ih =>
    intro hmem pr
    rw [List.foldl_cons]
    rcases List.mem_cons.mp hmem with heq | htail
    · apply resolveFold_snd_mem
      show ("Unresolvable path: " ++ a) ∈ (resolveStep fs cwd home pr b).2
      unfold resolveStep
      rw [← heq, hn]
      exact List.mem_append_right _ (List.mem_singleton_self _)
    · exact ih htail _

/-- C3.  For a deletion command (head basename in the deletion set)
reached by the analysis, every path argument matching an unresolvable
pattern (variable interpolation, command substitution, or a glob
metacharacter) contributes its tagged reason, independently of what it
would have resolved to, and a parsed line containing such a simple
command is blocked citing that reason. -/
theorem deletion_bad_arg_blocks (fs : FileSystem) (fuel : Nat) (t0 : String)
    (rest : List String) (arg : String) (cwd home : String)
    (hd : basename t0 = "rm" ∨ basename t0 = "unlink" ∨ basename t0 = "rmdir" ∨
      basename t0 = "shred")
    (ha : arg ∈ rmPathArgs rest)
    (hb : containsUnresolvable arg = true) :
    ("Unresolvable path: " ++ arg) ∈
      (extract_rm_targets fs (fuel + 1) (t0 :: rest) cwd home).2 ∧
    ∀ (command abs_cwd : String) (cmds : List (List String)),
      parse_command_tokens command = some cmds → (t0 :: rest) ∈ cmds →
      ∃ rs, check_command fs command cwd home abs_cwd =
          some (unresolvableBlockMsg rs command abs_cwd) ∧
        ("Unresolvable path: " ++ arg) ∈ rs := by
  have hext : ∀ n : Nat, extract_rm_targets fs (n + 1) (t0 :: rest) cwd home =
      resolveArgs fs (rmPathArgs rest) cwd home := by
    intro n
    rcases hd with h | h | h | h <;>
      simp [extract_rm_targets, h, DANGEROUS_COMMANDS, List.contains_cons]
  have hr : ∀ n : Nat, ("Unresolvable path: " ++ arg) ∈
      (extract_rm_targets fs (n + 1) (t0 :: rest) cwd home).2 := by
    intro n
    rw [hext n]
    exact resolveArgs_mem_reason fs cwd home (rmPathArgs rest) arg ha
      (resolve_path_none_of_unres fs arg cwd home hb)
  refine ⟨hr fuel, ?_⟩
  intro command abs_cwd cmds hp hm
  have hcond : (DANGEROUS_COMMANDS.contains (basename t0) ||
      COMMAND_EXECUTORS.contains (basename t0)) = true := by
    rcases hd with h | h | h | h <;> rw [h] <;> decide
  have hmem := gather_snd_mem_of_cmd fs (lenS command + 1) cwd home cmds t0 rest _
    hm hcond (hr (lenS command))
  refine ⟨(gatherTargets fs (lenS command + 1) cmds cwd home).2, ?_, hmem⟩
  exact check_command_unresolvable fs command cwd home abs_cwd cmds hp
    (fun hnil => by rw [hnil] at hmem; cases hmem)

/-- Witness for C3: `rm a?.txt` is blocked citing the glob argument. -/
theorem deletion_bad_arg_blocks_witness :
    ∃ rs, check_command emptyFS "rm a?.txt" "/home/u/project" "/home/u"
        "/home/u/project" = some (unresolvableBlockMsg rs "rm a?.txt"
          "/home/u/project") ∧
      ("Unresolvable path: " ++ "a?.txt") ∈ rs :=
  (deletion_bad_arg_blocks emptyFS 0 "rm" ["a?.txt"] "a?.txt" "/home/u/project"
    "/home/u" (Or.inl (by decide)) (by decide) (by decide)).2 "rm a?.txt"
    "/home/u/project" [["rm", "a?.txt"]] (by decide) (by decide)

end RmGuard
